import Mathlib

/-!
# SwiftMPx: the `mpfr_helper_format` shim

A shallow embedding of `Sources/CMPFR/shim.c`.  C strings are lists of
characters; a `char` array is the list of its bytes, a C string inside it
ends at the first NUL.  The external formatter `mpfr_snprintf` is not part of
the package and is a parameter of the embedded function.
-/

namespace SwiftMPx

/-! ## C library pieces used by the shim -/

/-- The string terminator `'\0'`. -/
def NUL : Char := Char.ofNat 0

/-- Smallest value of a C `int` on the package's targets (32-bit two's complement). -/
def INT_MIN : Int := -2147483648

/-- Largest value of a C `int` on the package's targets (32-bit two's complement). -/
def INT_MAX : Int := 2147483647

/-- The `%d` conversion of `printf`: signed decimal, a minus sign for negative values. -/
def fmt_d (d : Int) : List Char :=
  if d < 0 then '-' :: Nat.toDigits 10 d.natAbs else Nat.toDigits 10 d.natAbs

/-- Expansion of a `printf` template over `int` arguments, for the two directives
the shim's template uses: `%%` is a literal percent sign, `%d` consumes the next
argument; any other character is copied. -/
def printf_expand : List Char → List Int → List Char
  | '%' :: '%' :: rest, args => '%' :: printf_expand rest args
  | '%' :: 'd' :: rest, a :: args => fmt_d a ++ printf_expand rest args
  | c :: rest, args => c :: printf_expand rest args
  | [], _ => []

/-- C `snprintf(dst, size, template, ...)`: the contents of the array `dst`
after the call and the returned count.  At most `size - 1` characters of the
expansion are stored, followed by NUL; the bytes after them keep their old
contents; nothing is stored when `size = 0`.  The count is the full length. -/
def snprintf (dst : List Char) (size : Nat) (template : List Char) (args : List Int) :
    List Char × Int :=
  let out := printf_expand template args
  let n := min out.length (size - 1)
  (if size = 0 then dst else out.take n ++ NUL :: dst.drop (n + 1), out.length)

/-- The C string held by a `char` array: the bytes before the first NUL. -/
def c_str (mem : List Char) : List Char :=
  mem.takeWhile (fun c => c != NUL)

/-! ## The shim -/

/-- Signature of the external `mpfr_snprintf(buf, n, template, ...)` over a
state `σ`: destination pointer, size, template string, variadic arguments;
it yields its `int` result and the state after the call. -/
abbrev Formatter (Ptr σ : Type) := Ptr → Nat → List Char → List Ptr → σ → Int × σ

/-- The template literal of the `snprintf` call in `shim.c`. -/
def template : List Char := "%%.%dRg".data

/-- The specifier the shim builds: `snprintf(format, 32, "%%.%dRg", digits)` into
the local `char format[32]`, whose indeterminate initial contents are `format0`,
read back as a C string. -/
def specifier (format0 : List Char) (digits : Int) : List Char :=
  c_str (snprintf format0 32 template [digits]).1

/-- The function
`void mpfr_helper_format(char *buffer, size_t capacity, int digits, const void *value)`:
`snprintf` builds the specifier in the local `char format[32]`, then `mpfr_snprintf`
is called on `buffer`, `capacity`, `format` and the one variadic argument `value`.
`format0` is the indeterminate initial content of the local `format` array.
The function is `void`: the result of `mpfr_snprintf` is dropped. -/
def mpfr_helper_format {Ptr σ : Type} (mpfr_snprintf : Formatter Ptr σ) (format0 : List Char)
    (buffer : Ptr) (capacity : Nat) (digits : Int) (value : Ptr) (s : σ) : Unit × σ :=
  let format := (snprintf format0 32 template [digits]).1
  let r := mpfr_snprintf buffer capacity (c_str format) [value] s
  ((), r.2)

/-! ## Observing the calls made -/

/-- One call of the external formatter, as seen at its boundary. -/
structure Call (Ptr : Type) where
  buffer : Ptr
  capacity : Nat
  format : List Char
  args : List Ptr
deriving DecidableEq

/-- A formatter that only appends each call it receives to a log. -/
def recorder {Ptr : Type} : Formatter Ptr (List (Call Ptr)) :=
  fun b c f a log => (0, log ++ [⟨b, c, f, a⟩])

/-- A formatter that touches nothing and yields the result `r`. -/
def const_formatter (r : Int) : Formatter Nat Unit :=
  fun _ _ _ _ s => (r, s)

/-! ## The state the library works on -/

/-- The state around a call: the character buffers by address, the
arbitrary-precision values by address (a buffer never overlaps a value), and
everything else. -/
structure World (V O : Type) where
  mem : Nat → List Char
  val : Nat → V
  other : O

/-- The bytes a bounded formatting call stores at the start of its destination
for the full rendering `r`: nothing when the capacity is 0, otherwise the first
`capacity - 1` characters followed by NUL. -/
def bounded_output (capacity : Nat) (r : List Char) : List Char :=
  if capacity = 0 then [] else r.take (capacity - 1) ++ [NUL]

/-- Modelled from the spec: the bounded formatting contract of the external entry
point `mpfr_snprintf` (not part of the package), "writes at most a caller-specified
number of bytes, returning the number of bytes that would have been written absent
truncation", the result "truncated but still null-terminated".  `render` is the
library's full rendering of a value under a specifier. -/
structure BoundedWrite {V O : Type} (render : List Char → V → List Char)
    (lib : Formatter Nat (World V O)) : Prop where
  count : ∀ b cap f v s, (lib b cap f [v] s).1 = ((render f (s.val v)).length : Int)
  write : ∀ b cap f v s, (lib b cap f [v] s).2.mem b
    = bounded_output cap (render f (s.val v))
        ++ (s.mem b).drop (bounded_output cap (render f (s.val v))).length

/-- Modelled from the spec: the effect of the external entry point `mpfr_snprintf`
(not part of the package) is "only the write into `buffer`"; the values and the
rest of the state are left as they were. -/
structure WritesOnlyBuffer {V O : Type} (lib : Formatter Nat (World V O)) : Prop where
  mem : ∀ b cap f a s x, x ≠ b → (lib b cap f a s).2.mem x = s.mem x
  val : ∀ b cap f a s, (lib b cap f a s).2.val = s.val
  other : ∀ b cap f a s, (lib b cap f a s).2.other = s.other

/-- A bounded formatter over `World` for a given rendering function; it fails with
`-1` unless it is handed exactly one value. -/
def bounded_formatter {V O : Type} (render : List Char → V → List Char) :
    Formatter Nat (World V O) :=
  fun b cap f args s =>
    match args with
    | [v] =>
      let w := bounded_output cap (render f (s.val v))
      ((render f (s.val v)).length,
        { s with mem := fun x => if x = b then w ++ (s.mem b).drop w.length else s.mem x })
    | _ => (-1, s)

/-- A rendering for values that carry their text: the specifier in brackets, then
the text. -/
def tagged_text (f : List Char) (v : List Char) : List Char :=
  '[' :: f ++ ']' :: v

/-- A small state: every buffer holds `"????????"`, the value at address 0 is
`"0.33333"`, every other value is `"0.5"`. -/
def sample_world : World (List Char) Unit where
  mem := fun _ => "????????".data
  val := fun a => if a = 0 then "0.33333".data else "0.5".data
  other := ()

/-- A bounded formatter that writes only its destination but reads a flag in the
rest of the state, as a formatter reads the locale: with the flag set the decimal
mark of the rendering is a comma. -/
def locale_formatter : Formatter Nat (World (List Char) Bool) :=
  fun b cap _ args s =>
    match args with
    | [v] =>
      let r := if s.other then (s.val v).map (fun c => if c = '.' then ',' else c) else s.val v
      let w := bounded_output cap r
      (r.length,
        { s with mem := fun x => if x = b then w ++ (s.mem b).drop w.length else s.mem x })
    | _ => (-1, s)

/-- A state with two different buffers: buffer 3 holds `"aaa"`, every other buffer
`"bbb"`; every value is `"0.33333"`; the rest of the state is the flag `comma`. -/
def two_buffers (comma : Bool) : World (List Char) Bool where
  mem := fun a => if a = 3 then "aaa".data else "bbb".data
  val := fun _ => "0.33333".data
  other := comma

/-! ## Decimal conversion -/

theorem digitChar_isDigit (m : Nat) (h : m < 10) : (Nat.digitChar m).isDigit = true := by
  interval_cases m <;> decide

theorem toDigitsCore_mem (fuel : Nat) : ∀ (n : Nat) (acc : List Char) (c : Char),
    c ∈ Nat.toDigitsCore 10 fuel n acc → c ∈ acc ∨ c.isDigit = true := by
  induction fuel with
  | zero => intro n acc c h; left; simpa [Nat.toDigitsCore] using h
  | succ fuel ih =>
    intro n acc c h
    have hd : (Nat.digitChar (n % 10)).isDigit = true :=
      digitChar_isDigit _ (Nat.mod_lt _ (by decide))
    unfold Nat.toDigitsCore at h
    by_cases h0 : n / 10 = 0
    · simp only [h0, if_true, List.mem_cons] at h
      rcases h with h | h
      · right; rw [h]; exact hd
      · left; exact h
    · simp only [h0, if_false] at h
      rcases ih _ _ _ h with h | h
      · rcases List.mem_cons.mp h with h | h
        · right; rw [h]; exact hd
        · left; exact h
      · right; exact h

theorem toDigits_isDigit (n : Nat) (c : Char) (h : c ∈ Nat.toDigits 10 n) :
    c.isDigit = true := by
  rcases toDigitsCore_mem _ _ _ _ h with h | h
  · simp at h
  · exact h

theorem toDigits_length_le (n e : Nat) (he : 0 < e) (h : n < 10 ^ e) :
    (Nat.toDigits 10 n).length ≤ e :=
  Nat.toDigitsCore_length 10 (by decide) (n + 1) n e h he

/-- Every character of a `%d` conversion is a decimal digit or the minus sign. -/
theorem fmt_d_chars (d : Int) (c : Char) (h : c ∈ fmt_d d) : c = '-' ∨ c.isDigit = true := by
  unfold fmt_d at h
  split at h
  · rcases List.mem_cons.mp h with h | h
    · left; exact h
    · right; exact toDigits_isDigit _ _ h
  · right; exact toDigits_isDigit _ _ h

/-- A `%d` conversion of a value of magnitude below `10 ^ e` has at most `e + 1` characters. -/
theorem fmt_d_length_le (d : Int) (e : Nat) (he : 0 < e) (h : d.natAbs < 10 ^ e) :
    (fmt_d d).length ≤ e + 1 := by
  have := toDigits_length_le d.natAbs e he h
  unfold fmt_d
  split <;> simp <;> omega

theorem fmt_d_length_nonneg (d : Int) (e : Nat) (he : 0 < e) (h0 : 0 ≤ d)
    (h : d.natAbs < 10 ^ e) : (fmt_d d).length ≤ e := by
  have := toDigits_length_le d.natAbs e he h
  unfold fmt_d
  rw [if_neg (by omega)]
  exact this

theorem fmt_d_length_int (d : Int) (h1 : INT_MIN ≤ d) (h2 : d ≤ INT_MAX) :
    (fmt_d d).length ≤ 11 := by
  apply fmt_d_length_le d 10 (by decide)
  unfold INT_MIN at h1
  unfold INT_MAX at h2
  omega

/-! ## The specifier -/

theorem printf_expand_template (d : Int) :
    printf_expand template [d] = '%' :: '.' :: (fmt_d d ++ ['R', 'g']) := by
  simp [template, printf_expand]

/-- What follows the first NUL of an array is not part of its string. -/
theorem c_str_append (xs rest : List Char) : c_str (xs ++ NUL :: rest) = c_str xs := by
  unfold c_str
  induction xs with
  | nil => simp [List.takeWhile_cons]
  | cons x xs ih =>
    rw [List.cons_append, List.takeWhile_cons, List.takeWhile_cons, ih]

theorem c_str_of_no_NUL (xs : List Char) (h : ∀ c ∈ xs, c ≠ NUL) : c_str xs = xs := by
  unfold c_str
  rw [List.takeWhile_eq_self_iff]
  intro c hc
  simpa using h c hc

theorem c_str_append_NUL (xs rest : List Char) (h : ∀ c ∈ xs, c ≠ NUL) :
    c_str (xs ++ NUL :: rest) = xs := by
  rw [c_str_append, c_str_of_no_NUL xs h]

theorem expansion_no_NUL (d : Int) : ∀ c ∈ printf_expand template [d], c ≠ NUL := by
  intro c hc
  rw [printf_expand_template] at hc
  simp only [List.mem_cons, List.mem_append, List.mem_singleton, List.not_mem_nil,
    or_false] at hc
  rcases hc with h | h | h | h | h
  · rw [h]; decide
  · rw [h]; decide
  · rcases fmt_d_chars d c h with h | h
    · rw [h]; decide
    · intro hn; rw [hn] at h; revert h; decide
  · rw [h]; decide
  · rw [h]; decide

/-- Whenever the `%d` conversion has at most 27 characters, the specifier read
from the 32-byte array is the whole expansion, whatever the array held before. -/
theorem specifier_eq_of_length (format0 : List Char) (d : Int) (h : (fmt_d d).length ≤ 27) :
    specifier format0 d = '%' :: '.' :: (fmt_d d ++ ['R', 'g']) := by
  have hlen : (printf_expand template [d]).length ≤ 31 := by
    rw [printf_expand_template]; simp; omega
  unfold specifier snprintf
  simp only [show (32 : Nat) ≠ 0 by decide, if_false, Nat.add_one_sub_one]
  rw [Nat.min_eq_left hlen, List.take_length, c_str_append_NUL _ _ (expansion_no_NUL d),
    printf_expand_template]

/-- For every `int` the specifier is `"%."`, the decimal of `digits`, `"Rg"`. -/
theorem specifier_eq (format0 : List Char) (d : Int) (h1 : INT_MIN ≤ d) (h2 : d ≤ INT_MAX) :
    specifier format0 d = '%' :: '.' :: (fmt_d d ++ ['R', 'g']) :=
  specifier_eq_of_length format0 d (by have := fmt_d_length_int d h1 h2; omega)

theorem fmt_d_eq_toString (d : Int) : fmt_d d = (toString d).data := by
  unfold fmt_d
  cases d with
  | ofNat n =>
    rw [if_neg (by simp)]
    rfl
  | negSucc n =>
    rw [if_pos (Int.negSucc_lt_zero n)]
    rfl

theorem fmt_d_nonneg (d : Int) (h : 0 ≤ d) : fmt_d d = (Nat.repr d.toNat).data := by
  unfold fmt_d
  rw [if_neg (by omega)]
  have : d.natAbs = d.toNat := by omega
  rw [this]
  rfl

/-- The shim is one call of the formatter on the specifier, its result dropped. -/
theorem mpfr_helper_format_eq {Ptr σ : Type} (lib : Formatter Ptr σ) (format0 : List Char)
    (buffer : Ptr) (capacity : Nat) (digits : Int) (value : Ptr) (s : σ) :
    mpfr_helper_format lib format0 buffer capacity digits value s
      = ((), (lib buffer capacity (specifier format0 digits) [value] s).2) := rfl

/-! ## The claims on the specifier -/

/-- C1: for every non-negative `int` digit count `d` the specifier built by
`mpfr_helper_format` and handed to the library is exactly `"%."`, the decimal
representation of `d`, `"Rg"`; the 32-byte local array does not truncate it
(the count `snprintf` reports is below 32). -/
theorem C1_specifier_exact {Ptr σ : Type} (lib : Formatter Ptr σ) (format0 : List Char)
    (buffer : Ptr) (capacity : Nat) (d : Int) (value : Ptr) (s : σ)
    (h0 : 0 ≤ d) (h1 : d ≤ INT_MAX) :
    specifier format0 d = "%.".data ++ (Nat.repr d.toNat).data ++ "Rg".data
    ∧ (snprintf format0 32 template [d]).2 < 32
    ∧ mpfr_helper_format lib format0 buffer capacity d value s
        = ((), (lib buffer capacity ("%.".data ++ (Nat.repr d.toNat).data ++ "Rg".data)
            [value] s).2) := by
  have hmin : INT_MIN ≤ d := by unfold INT_MIN; omega
  have hs : specifier format0 d = "%.".data ++ (Nat.repr d.toNat).data ++ "Rg".data := by
    rw [specifier_eq format0 d hmin h1, fmt_d_nonneg d h0]; rfl
  refine ⟨hs, ?_, ?_⟩
  · have := fmt_d_length_int d hmin h1
    simp only [snprintf, printf_expand_template, List.length_cons, List.length_append,
      List.length_nil]
    omega
  · rw [mpfr_helper_format_eq, hs]

/-- C1 at `d = 5` and `d = 0`: the specifiers are `"%.5Rg"` and `"%.0Rg"`. -/
theorem C1_specifier_exact_witness :
    ((0 : Int) ≤ 5 ∧ (5 : Int) ≤ INT_MAX)
    ∧ specifier [] 5 = "%.5Rg".data
    ∧ specifier [] 0 = "%.0Rg".data :=
  ⟨⟨by decide, by decide⟩,
   (C1_specifier_exact (const_formatter 0) [] 0 32 5 0 () (by decide) (by decide)).1.trans
     (by decide),
   by decide⟩

/-- C7: no validation.  For every `int` value of `digits`, negative ones included,
the shim forwards to the external formatter: started on any log, the recorded run
adds exactly one call, and the specifier of that call (and of the call made on any
library) is `"%."`, the signed decimal representation of `digits`, `"Rg"`. -/
theorem C7_no_validation {Ptr σ : Type} (lib : Formatter Ptr σ) (format0 : List Char)
    (buffer : Ptr) (capacity : Nat) (digits : Int) (value : Ptr) (s : σ)
    (log : List (Call Ptr)) (h1 : INT_MIN ≤ digits) (h2 : digits ≤ INT_MAX) :
    (mpfr_helper_format recorder format0 buffer capacity digits value log).2
        = log ++ [⟨buffer, capacity, "%.".data ++ (toString digits).data ++ "Rg".data, [value]⟩]
    ∧ mpfr_helper_format lib format0 buffer capacity digits value s
        = ((), (lib buffer capacity ("%.".data ++ (toString digits).data ++ "Rg".data)
            [value] s).2) := by
  have hs : specifier format0 digits = "%.".data ++ (toString digits).data ++ "Rg".data := by
    rw [specifier_eq format0 digits h1 h2, fmt_d_eq_toString]; rfl
  constructor
  · rw [mpfr_helper_format_eq, hs]; rfl
  · rw [mpfr_helper_format_eq, hs]

/-- C7 at `digits = -5`: the malformed specifier `"%.-5Rg"` is forwarded. -/
theorem C7_no_validation_witness :
    (INT_MIN ≤ -5 ∧ (-5 : Int) ≤ INT_MAX)
    ∧ (mpfr_helper_format recorder [] 7 32 (-5) 9 []).2
        = [⟨7, 32, "%.-5Rg".data, [9]⟩] :=
  ⟨⟨by decide, by decide⟩,
   (C7_no_validation (const_formatter 0) [] 7 32 (-5) 9 () [] (by decide) (by decide)).1.trans
     (by decide)⟩

/-- C3: for every buffer, capacity, `int` digits and value, the shim invokes the
external formatter exactly once (the recorded run from the empty log is a single
call), the arguments of that call are the caller's buffer, the caller's capacity, the
specifier built from `digits` and the caller's value as the only variadic argument,
and on every library the state after the shim is the state after calling the
library directly with these arguments. -/
theorem C3_single_forwarded_call {Ptr σ : Type} (lib : Formatter Ptr σ) (format0 : List Char)
    (buffer : Ptr) (capacity : Nat) (digits : Int) (value : Ptr) (s : σ)
    (h1 : INT_MIN ≤ digits) (h2 : digits ≤ INT_MAX) :
    (mpfr_helper_format recorder format0 buffer capacity digits value []).2
        = [⟨buffer, capacity, '%' :: '.' :: (fmt_d digits ++ ['R', 'g']), [value]⟩]
    ∧ (mpfr_helper_format lib format0 buffer capacity digits value s).2
        = (lib buffer capacity ('%' :: '.' :: (fmt_d digits ++ ['R', 'g'])) [value] s).2 := by
  constructor
  · rw [mpfr_helper_format_eq, specifier_eq format0 digits h1 h2]; rfl
  · rw [mpfr_helper_format_eq, specifier_eq format0 digits h1 h2]

/-- C3 at buffer 7, capacity 32, digits 5, value 9. -/
theorem C3_single_forwarded_call_witness :
    (INT_MIN ≤ 5 ∧ (5 : Int) ≤ INT_MAX)
    ∧ (mpfr_helper_format recorder ['x', 'y'] 7 32 5 9 []).2 = [⟨7, 32, "%.5Rg".data, [9]⟩] :=
  ⟨⟨by decide, by decide⟩,
   (C3_single_forwarded_call (const_formatter 0) ['x', 'y'] 7 32 5 9 ()
      (by decide) (by decide)).1.trans (by decide)⟩

theorem fmt_d_count_percent (d : Int) : (fmt_d d).count '%' = 0 := by
  rw [List.count_eq_zero]
  intro h
  rcases fmt_d_chars d _ h with h | h
  · revert h; decide
  · revert h; decide

/-- C10: for every `int` digits the specifier passed to the external formatter
contains exactly one `%`, at index 0, and ends with `Rg`; the call carries exactly
one variadic argument, the value. -/
theorem C10_one_conversion {Ptr : Type} (format0 : List Char)
    (buffer : Ptr) (capacity : Nat) (digits : Int) (value : Ptr)
    (h1 : INT_MIN ≤ digits) (h2 : digits ≤ INT_MAX) :
    (specifier format0 digits).count '%' = 1
    ∧ (specifier format0 digits).head? = some '%'
    ∧ ['R', 'g'] <:+ specifier format0 digits
    ∧ ((mpfr_helper_format recorder format0 buffer capacity digits value []).2.map
        (fun c => (c.format, c.args))) = [(specifier format0 digits, [value])] := by
  refine ⟨?_, ?_, ?_, rfl⟩
  · rw [specifier_eq format0 digits h1 h2]
    have := fmt_d_count_percent digits
    simp [List.count_cons, List.count_append, this]
  · rw [specifier_eq format0 digits h1 h2]; rfl
  · rw [specifier_eq format0 digits h1 h2]
    exact ⟨'%' :: '.' :: fmt_d digits, by simp⟩

/-- C10 at `digits = -2147483648`, the longest specifier. -/
theorem C10_one_conversion_witness :
    (INT_MIN ≤ -2147483648 ∧ (-2147483648 : Int) ≤ INT_MAX)
    ∧ (specifier [] (-2147483648)).count '%' = 1 :=
  ⟨⟨by decide, by decide⟩,
   (C10_one_conversion [] 7 32 (-2147483648) 9 (by decide) (by decide)).1⟩

/-! ## The 32-byte array -/

/-- An `int` of at most 64 bits expands to at most 24 characters. -/
theorem expansion_length_of_width (w : Nat) (d : Int) (hw : w ≤ 64)
    (h1 : -(2 : Int) ^ (w - 1) ≤ d) (h2 : d < (2 : Int) ^ (w - 1)) :
    (printf_expand template [d]).length ≤ 24 := by
  have hp : 2 ^ (w - 1) ≤ 2 ^ 63 := Nat.pow_le_pow_right (by decide) (by omega)
  have hc : ((2 ^ (w - 1) : Nat) : Int) = (2 : Int) ^ (w - 1) := by push_cast; rfl
  rw [← hc] at h1 h2
  generalize 2 ^ (w - 1) = P at hp h1 h2
  have hP : P ≤ 9223372036854775808 := by simpa using hp
  have := fmt_d_length_le d 19 (by decide) (by omega)
  rw [printf_expand_template]
  simp only [List.length_cons, List.length_append, List.length_nil]
  omega

/-- C9, refuted as stated: for no `int` value of `digits` (of any width up to 64
bits) does the specifier with its NUL need more than 32 bytes, and for none is the
string read back from the array different from the full expansion. -/
theorem C9_no_int_overflows :
    ¬ ∃ (w : Nat) (d : Int) (format0 : List Char), w ≤ 64
        ∧ -(2 : Int) ^ (w - 1) ≤ d ∧ d < (2 : Int) ^ (w - 1)
        ∧ (32 < (printf_expand template [d]).length + 1
            ∨ specifier format0 d ≠ printf_expand template [d]) := by
  rintro ⟨w, d, format0, hw, h1, h2, h⟩
  have hlen := expansion_length_of_width w d hw h1 h2
  rcases h with h | h
  · omega
  · apply h
    rw [printf_expand_template] at hlen ⊢
    apply specifier_eq_of_length
    simp only [List.length_cons, List.length_append, List.length_nil] at hlen
    omega

/-- C9, amended: for every `int` digits the specifier with its NUL takes at most 16
of the 32 bytes of `format`; the array keeps its 32 bytes (nothing is stored past
it), holds the whole expansion followed by NUL and then its old bytes, and the
string read back is the whole expansion. -/
theorem C9_specifier_fits (format0 : List Char) (digits : Int)
    (h1 : INT_MIN ≤ digits) (h2 : digits ≤ INT_MAX) (hlen : format0.length = 32) :
    (printf_expand template [digits]).length + 1 ≤ 16
    ∧ (snprintf format0 32 template [digits]).1.length = 32
    ∧ (snprintf format0 32 template [digits]).1
        = printf_expand template [digits]
            ++ NUL :: format0.drop ((printf_expand template [digits]).length + 1)
    ∧ specifier format0 digits = printf_expand template [digits] := by
  have hd := fmt_d_length_int digits h1 h2
  have hl : (printf_expand template [digits]).length ≤ 15 := by
    rw [printf_expand_template]
    simp only [List.length_cons, List.length_append, List.length_nil]
    omega
  have hst : (snprintf format0 32 template [digits]).1
      = printf_expand template [digits]
          ++ NUL :: format0.drop ((printf_expand template [digits]).length + 1) := by
    unfold snprintf
    simp only [show (32 : Nat) ≠ 0 by decide, if_false, Nat.add_one_sub_one]
    rw [Nat.min_eq_left (by omega), List.take_length]
  refine ⟨by omega, ?_, hst, ?_⟩
  · rw [hst]
    simp only [List.length_append, List.length_cons, List.length_drop, hlen]
    omega
  · rw [printf_expand_template]
    exact specifier_eq format0 digits h1 h2

/-- C9 amended, at `digits = INT_MIN` on a zero-filled array: 16 bytes are used. -/
theorem C9_specifier_fits_witness :
    (INT_MIN ≤ INT_MIN ∧ INT_MIN ≤ INT_MAX ∧ (List.replicate 32 '0').length = 32)
    ∧ (printf_expand template [INT_MIN]).length + 1 = 16
    ∧ specifier (List.replicate 32 '0') INT_MIN = "%.-2147483648Rg".data :=
  ⟨⟨by decide, by decide, by decide⟩, by decide,
   (C9_specifier_fits (List.replicate 32 '0') INT_MIN (by decide) (by decide)
      (by decide)).2.2.2.trans (by decide)⟩

/-! ## Effects through the library -/

theorem bounded_formatter_boundedWrite {V O : Type} (render : List Char → V → List Char) :
    BoundedWrite render (bounded_formatter render : Formatter Nat (World V O)) where
  count := fun _ _ _ _ _ => rfl
  write := fun b cap f v s => by simp [bounded_formatter]

theorem bounded_formatter_writesOnlyBuffer {V O : Type} (render : List Char → V → List Char) :
    WritesOnlyBuffer (bounded_formatter render : Formatter Nat (World V O)) where
  mem := fun b cap f a s x hx => by
    unfold bounded_formatter
    split <;> simp [hx]
  val := fun b cap f a s => by
    unfold bounded_formatter
    split <;> rfl
  other := fun b cap f a s => by
    unfold bounded_formatter
    split <;> rfl

/-- The string read from the array does not depend on what the array held before. -/
theorem specifier_indep (f1 f2 : List Char) (d : Int) : specifier f1 d = specifier f2 d := by
  unfold specifier snprintf
  simp only [show (32 : Nat) ≠ 0 by decide, if_false]
  rw [c_str_append, c_str_append]

/-- C2, refuted as stated: nothing the caller can compute from what the shim
returns equals the result of the library in every call; two libraries yielding 0
and 1 on the same call give the caller the same `void` outcome. -/
theorem C2_result_not_returned :
    ¬ ∃ ret : Unit → Int, ∀ r : Int,
        ret (mpfr_helper_format (const_formatter r) [] 0 32 5 0 ()).1
          = (const_formatter r 0 32 (specifier [] 5) [0] ()).1 := by
  rintro ⟨ret, h⟩
  have h0 : ret () = 0 := h 0
  have h1 : ret () = 1 := h 1
  rw [h0] at h1
  exact absurd h1 (by decide)

/-- C2, amended: the shim is `void`; the result of the library's bounded formatting
call is dropped.  What the caller gets is the unit value and the state left by that
one call, whatever the library's result: changing every result of the library by
any amount `k` changes nothing. -/
theorem C2_result_discarded {Ptr σ : Type} (lib : Formatter Ptr σ) (k : Int)
    (format0 : List Char) (buffer : Ptr) (capacity : Nat) (digits : Int) (value : Ptr)
    (s : σ) :
    mpfr_helper_format (fun b c f a t => ((lib b c f a t).1 + k, (lib b c f a t).2))
        format0 buffer capacity digits value s
      = mpfr_helper_format lib format0 buffer capacity digits value s
    ∧ mpfr_helper_format lib format0 buffer capacity digits value s
      = ((), (lib buffer capacity (specifier format0 digits) [value] s).2) :=
  ⟨rfl, rfl⟩

/-- C4, refuted as stated: with capacity 2 and the renderings of the values at
addresses 0 and 1 of lengths 14 and 10, no reading of what the shim returns gives
the untruncated length in both calls. -/
theorem C4_count_not_returned :
    ¬ ∃ ret : Unit → Int,
        ret (mpfr_helper_format (bounded_formatter tagged_text) [] 3 2 5 0 sample_world).1
            = ((tagged_text (specifier [] 5) (sample_world.val 0)).length : Int)
        ∧ ret (mpfr_helper_format (bounded_formatter tagged_text) [] 3 2 5 1 sample_world).1
            = ((tagged_text (specifier [] 5) (sample_world.val 1)).length : Int) := by
  rintro ⟨ret, h0, h1⟩
  have e0 : ((tagged_text (specifier [] 5) (sample_world.val 0)).length : Int) = 14 := by
    decide
  have e1 : ((tagged_text (specifier [] 5) (sample_world.val 1)).length : Int) = 10 := by
    decide
  rw [e0] at h0
  rw [e1] at h1
  have : ret () = 14 := h0
  rw [show ret () = 10 from h1] at this
  exact absurd this (by decide)

/-- C4, amended: on a library that keeps the bounded formatting contract, for every
value and `int` digits whose full rendering has length `n` and every capacity with
`0 < capacity ≤ n`, after the shim the first `capacity` bytes of the buffer are the
first `capacity - 1` characters of the full rendering followed by NUL; `n` is the
result of the library call, which the `void` shim does not return. -/
theorem C4_truncation {V O : Type} (render : List Char → V → List Char)
    (lib : Formatter Nat (World V O)) (hlib : BoundedWrite render lib)
    (format0 : List Char) (buffer capacity : Nat) (digits : Int) (value : Nat)
    (s : World V O) (h1 : INT_MIN ≤ digits) (h2 : digits ≤ INT_MAX) (hc : 0 < capacity)
    (hn : capacity ≤ (render ('%' :: '.' :: (fmt_d digits ++ ['R', 'g'])) (s.val value)).length) :
    ((mpfr_helper_format lib format0 buffer capacity digits value s).2.mem buffer).take capacity
        = (render ('%' :: '.' :: (fmt_d digits ++ ['R', 'g'])) (s.val value)).take (capacity - 1)
            ++ [NUL]
    ∧ (lib buffer capacity ('%' :: '.' :: (fmt_d digits ++ ['R', 'g'])) [value] s).1
        = ((render ('%' :: '.' :: (fmt_d digits ++ ['R', 'g'])) (s.val value)).length : Int) := by
  refine ⟨?_, hlib.count _ _ _ _ _⟩
  rw [mpfr_helper_format_eq, specifier_eq format0 digits h1 h2, hlib.write]
  generalize render ('%' :: '.' :: (fmt_d digits ++ ['R', 'g'])) (s.val value) = r at hn ⊢
  have hw : bounded_output capacity r = r.take (capacity - 1) ++ [NUL] := by
    unfold bounded_output
    rw [if_neg (by omega)]
  have hl : (r.take (capacity - 1) ++ [NUL]).length = capacity := by
    simp only [List.length_append, List.length_take, List.length_cons, List.length_nil]
    omega
  rw [hw, hl]
  exact List.take_left' hl

/-- C4 amended, at capacity 4: the 14-character rendering `"[%.5Rg]0.33333"` is cut
to `"[%."` and NUL. -/
theorem C4_truncation_witness :
    (INT_MIN ≤ 5 ∧ (5 : Int) ≤ INT_MAX ∧ 0 < 4
      ∧ 4 ≤ (tagged_text ('%' :: '.' :: (fmt_d 5 ++ ['R', 'g'])) (sample_world.val 0)).length)
    ∧ ((mpfr_helper_format (bounded_formatter tagged_text) [] 3 4 5 0 sample_world).2.mem 3).take 4
        = ['[', '%', '.', NUL] :=
  ⟨⟨by decide, by decide, by decide, by decide⟩,
   (C4_truncation tagged_text (bounded_formatter tagged_text)
      (bounded_formatter_boundedWrite tagged_text) [] 3 4 5 0 sample_world
      (by decide) (by decide) (by decide) (by decide)).1.trans (by decide)⟩

theorem c_str_bounded_output (capacity : Nat) (r rest : List Char) (hc : 0 < capacity) :
    c_str (bounded_output capacity r ++ rest) = c_str (r.take (capacity - 1)) := by
  unfold bounded_output
  rw [if_neg (by omega), List.append_assoc, List.singleton_append, c_str_append]

theorem locale_formatter_writesOnlyBuffer : WritesOnlyBuffer locale_formatter where
  mem := fun b cap f a s x hx => by
    unfold locale_formatter
    split <;> simp [hx]
  val := fun b cap f a s => by
    unfold locale_formatter
    split <;> rfl
  other := fun b cap f a s => by
    unfold locale_formatter
    split <;> rfl

/-- C5, refuted as stated.  With capacity 0 nothing is stored: after the two calls,
buffer 3 still holds `"aaa"` and buffer 4 still holds `"bbb"`, so the strings in the
two buffers differ.  And the output does depend on state other than the arguments
when the library reads such state: on a formatter that writes only its destination
but takes its decimal mark from a flag in the rest of the state, the same value,
digits and capacity give `"0.33333"` in buffer 3 and, once the flag is set between
the calls, `"0,33333"` in buffer 4. -/
theorem C5_strings_can_differ :
    c_str ((mpfr_helper_format (bounded_formatter tagged_text) [] 4 0 5 0
        (mpfr_helper_format (bounded_formatter tagged_text) [] 3 0 5 0
          (two_buffers false)).2).2.mem 3)
      ≠ c_str ((mpfr_helper_format (bounded_formatter tagged_text) [] 4 0 5 0
        (mpfr_helper_format (bounded_formatter tagged_text) [] 3 0 5 0
          (two_buffers false)).2).2.mem 4)
    ∧ WritesOnlyBuffer locale_formatter
    ∧ c_str ((mpfr_helper_format locale_formatter [] 4 32 5 0
        { (mpfr_helper_format locale_formatter [] 3 32 5 0 (two_buffers false)).2 with
            other := true }).2.mem 3) = "0.33333".data
    ∧ c_str ((mpfr_helper_format locale_formatter [] 4 32 5 0
        { (mpfr_helper_format locale_formatter [] 3 32 5 0 (two_buffers false)).2 with
            other := true }).2.mem 4) = "0,33333".data :=
  ⟨by decide, locale_formatter_writesOnlyBuffer, by decide, by decide⟩

/-- C5, amended.  The shim adds no state of its own: the specifier is a function of
`digits` alone (the old contents `f1`, `f2` of the local `format` array do not enter
it), and two calls with the same value, digits and capacity into buffers `b1`, `b2`
are two calls of the library that differ in the destination only.  On a library
whose rendering is a function of the specifier and the value alone (the bounded
formatting contract) and which writes only its destination, two such calls one after
the other into different buffers store the same bytes at the start of both buffers;
for a positive capacity both buffers then hold the same string; for capacity 0
nothing is stored and both buffers keep what they held. -/
theorem C5_deterministic {V O : Type} (render : List Char → V → List Char)
    (lib : Formatter Nat (World V O)) (hw : BoundedWrite render lib)
    (hf : WritesOnlyBuffer lib) (f1 f2 : List Char) (b1 b2 capacity : Nat) (digits : Int)
    (value : Nat) (s : World V O) (hb : b1 ≠ b2) :
    specifier f1 digits = specifier f2 digits
    ∧ (mpfr_helper_format recorder f2 b2 capacity digits value
        (mpfr_helper_format recorder f1 b1 capacity digits value []).2).2
      = [⟨b1, capacity, specifier [] digits, [value]⟩,
         ⟨b2, capacity, specifier [] digits, [value]⟩]
    ∧ ((mpfr_helper_format lib f2 b2 capacity digits value
        (mpfr_helper_format lib f1 b1 capacity digits value s).2).2.mem b1
      = bounded_output capacity (render (specifier [] digits) (s.val value))
          ++ (s.mem b1).drop
              (bounded_output capacity (render (specifier [] digits) (s.val value))).length)
    ∧ ((mpfr_helper_format lib f2 b2 capacity digits value
        (mpfr_helper_format lib f1 b1 capacity digits value s).2).2.mem b2
      = bounded_output capacity (render (specifier [] digits) (s.val value))
          ++ (s.mem b2).drop
              (bounded_output capacity (render (specifier [] digits) (s.val value))).length)
    ∧ (0 < capacity →
        c_str ((mpfr_helper_format lib f2 b2 capacity digits value
          (mpfr_helper_format lib f1 b1 capacity digits value s).2).2.mem b1)
        = c_str ((mpfr_helper_format lib f2 b2 capacity digits value
          (mpfr_helper_format lib f1 b1 capacity digits value s).2).2.mem b2))
    ∧ (capacity = 0 →
        (mpfr_helper_format lib f2 b2 capacity digits value
          (mpfr_helper_format lib f1 b1 capacity digits value s).2).2.mem b1 = s.mem b1
        ∧ (mpfr_helper_format lib f2 b2 capacity digits value
          (mpfr_helper_format lib f1 b1 capacity digits value s).2).2.mem b2 = s.mem b2) := by
  have e1 : (mpfr_helper_format lib f2 b2 capacity digits value
        (mpfr_helper_format lib f1 b1 capacity digits value s).2).2.mem b1
      = bounded_output capacity (render (specifier [] digits) (s.val value))
          ++ (s.mem b1).drop
              (bounded_output capacity (render (specifier [] digits) (s.val value))).length := by
    rw [mpfr_helper_format_eq, mpfr_helper_format_eq, hf.mem _ _ _ _ _ b1 hb, hw.write,
      specifier_indep f1 []]
  have e2 : (mpfr_helper_format lib f2 b2 capacity digits value
        (mpfr_helper_format lib f1 b1 capacity digits value s).2).2.mem b2
      = bounded_output capacity (render (specifier [] digits) (s.val value))
          ++ (s.mem b2).drop
              (bounded_output capacity (render (specifier [] digits) (s.val value))).length := by
    rw [mpfr_helper_format_eq, mpfr_helper_format_eq, hw.write, hf.val,
      hf.mem _ _ _ _ _ b2 (Ne.symm hb), specifier_indep f2 []]
  refine ⟨specifier_indep f1 f2 digits, ?_, e1, e2, fun hc => ?_, fun h0 => ?_⟩
  · rw [mpfr_helper_format_eq, mpfr_helper_format_eq, specifier_indep f1 [],
      specifier_indep f2 []]
    rfl
  · rw [e1, e2, c_str_bounded_output _ _ _ hc, c_str_bounded_output _ _ _ hc]
  · rw [e1, e2]
    subst h0
    simp [bounded_output]

/-- C5 amended, at buffers 3 and 4, capacity 6, digits 5, the value at address 0,
with different leftovers in the local array: both buffers end up holding `"[%.5R"`. -/
theorem C5_deterministic_witness :
    (3 ≠ 4)
    ∧ c_str ((mpfr_helper_format (bounded_formatter tagged_text) ['b'] 4 6 5 0
        (mpfr_helper_format (bounded_formatter tagged_text) ['a', 'a'] 3 6 5 0
          sample_world).2).2.mem 3) = "[%.5R".data
    ∧ c_str ((mpfr_helper_format (bounded_formatter tagged_text) ['b'] 4 6 5 0
        (mpfr_helper_format (bounded_formatter tagged_text) ['a', 'a'] 3 6 5 0
          sample_world).2).2.mem 4) = "[%.5R".data :=
  ⟨by decide,
   by decide,
   ((C5_deterministic tagged_text (bounded_formatter tagged_text)
      (bounded_formatter_boundedWrite tagged_text)
      (bounded_formatter_writesOnlyBuffer tagged_text) ['a', 'a'] ['b'] 3 4 6 5 0
      sample_world (by decide)).2.2.2.2.1 (by decide)).symm.trans (by decide)⟩

/-- C6: frame.  On a library whose call writes only its destination, the shim
changes only the destination buffer: the values (the one referenced by `value`
among them) and the rest of the state are the same after the call as before, and so
is every buffer other than the destination. -/
theorem C6_frame {V O : Type} (lib : Formatter Nat (World V O)) (hf : WritesOnlyBuffer lib)
    (format0 : List Char) (buffer capacity : Nat) (digits : Int) (value : Nat)
    (s : World V O) :
    (mpfr_helper_format lib format0 buffer capacity digits value s).2.val = s.val
    ∧ (mpfr_helper_format lib format0 buffer capacity digits value s).2.val value = s.val value
    ∧ (mpfr_helper_format lib format0 buffer capacity digits value s).2.other = s.other
    ∧ ∀ x, x ≠ buffer →
        (mpfr_helper_format lib format0 buffer capacity digits value s).2.mem x = s.mem x := by
  rw [mpfr_helper_format_eq]
  refine ⟨hf.val _ _ _ _ _, ?_, hf.other _ _ _ _ _, fun x hx => hf.mem _ _ _ _ _ x hx⟩
  rw [hf.val]

/-- C6 at buffer 3, value 0: the value is still `"0.33333"` and buffer 4 still
holds `"????????"` after the call. -/
theorem C6_frame_witness :
    WritesOnlyBuffer (bounded_formatter tagged_text : Formatter Nat (World (List Char) Unit))
    ∧ (mpfr_helper_format (bounded_formatter tagged_text) [] 3 32 5 0 sample_world).2.val 0
        = "0.33333".data
    ∧ (mpfr_helper_format (bounded_formatter tagged_text) [] 3 32 5 0 sample_world).2.mem 4
        = "????????".data :=
  ⟨bounded_formatter_writesOnlyBuffer tagged_text,
   (C6_frame (bounded_formatter tagged_text) (bounded_formatter_writesOnlyBuffer tagged_text)
      [] 3 32 5 0 sample_world).2.1.trans (by decide),
   by decide⟩

end SwiftMPx
